import Mathlib

/-!
Shallow embedding of the SLB News Relevance Analyzer
(source file `UpstreamStreamlit.py`).

The Python source is embedded definition by definition:
string helpers model the Python primitives the program uses
(lowercasing, stripping, substring containment, splitting on
punctuation runs, the fixed date regular expression, list removal);
`Story` and `KeywordStore` model the data; `analyze_slb_relevance`,
`create_editorial_summary`, `parse_rss_content` and the keyword-store
mutations follow the source line by line.

Definitions whose name contains `Claim` follow the words of the
specification, for refinement comparison; everything else follows the
source.
-/

set_option maxHeartbeats 1000000
set_option maxRecDepth 100000

/-! ### String primitives -/

/-- ASCII lowercase of one character, as the Python lower method acts on
ASCII text. -/
def lowerChar (c : Char) : Char :=
  if 65 ≤ c.toNat ∧ c.toNat ≤ 90 then
    Char.ofNat (c.toNat + 32)
  else c

/-- Model of the Python lower method (ASCII). -/
def lowerStr (s : String) : String := String.mk (s.toList.map lowerChar)

/-- Whitespace characters removed by the Python strip method. -/
def isWS (c : Char) : Bool :=
  c == ' ' || c == '\t' || c == '\n' || c == '\r' || c == '\x0b' || c == '\x0c'

/-- Model of the Python strip method, on a character list. -/
def stripChars (l : List Char) : List Char :=
  ((l.dropWhile isWS).reverse.dropWhile isWS).reverse

/-- Model of the Python strip method. -/
def stripStr (s : String) : String := String.mk (stripChars s.toList)

/-- Does the needle match at the head of the haystack? -/
def headMatches : List Char → List Char → Bool
  | [], _ => true
  | _ :: _, [] => false
  | a :: as, b :: bs => a == b && headMatches as bs

/-- Model of Python substring containment (the in operator on strings). -/
def hasSub (needle : List Char) : List Char → Bool
  | [] => needle.isEmpty
  | b :: bs => headMatches needle (b :: bs) || hasSub needle bs

/-- Substring containment on strings: needle in hay. -/
def strIn (needle hay : String) : Bool := hasSub needle.toList hay.toList

/-! ### Data model -/

/-- A parsed feed item, the story dictionary built by `parse_rss_content`. -/
structure Story where
  title : String
  link : String
  description : String
  date : String
  author : String
  categories : String
deriving DecidableEq, Repr

/-- Names for the three keyword tiers of the session state. -/
inductive TierName where
  | high
  | moderate
  | relevant
deriving DecidableEq, Repr

/-- The keyword store: the three session-state keyword lists. -/
structure KeywordStore where
  high : List String
  moderate : List String
  relevant : List String
deriving DecidableEq, Repr

def getTier (t : TierName) (ks : KeywordStore) : List String :=
  match t with
  | .high => ks.high
  | .moderate => ks.moderate
  | .relevant => ks.relevant

def setTier (t : TierName) (l : List String) (ks : KeywordStore) : KeywordStore :=
  match t with
  | .high => { ks with high := l }
  | .moderate => { ks with moderate := l }
  | .relevant => { ks with relevant := l }

/-- Default value of the high-tier keyword list in the session state. -/
def defaultHigh : List String :=
  ["slb", "schlumberger", "halliburton", "baker hughes", "oilfield services",
   "drilling", "completion", "fracking", "hydraulic fracturing", "well services",
   "subsurface", "reservoir", "logging", "wireline", "coiled tubing",
   "artificial lift", "stimulation", "cementing", "mud logging",
   "directional drilling", "mwd", "lwd", "measurement while drilling",
   "carbon capture", "ccs", "ccus", "sequestration", "co2 injection",
   "digital oilfield", "petrotechnical", "geophysics", "petrophysics"]

/-- Default value of the moderate-tier keyword list in the session state. -/
def defaultModerate : List String :=
  ["exploration", "production", "upstream", "offshore", "deepwater",
   "unconventional", "shale", "tight oil", "enhanced recovery",
   "field development", "project sanctioning", "final investment decision",
   "technology", "innovation", "digitalization", "automation",
   "esg", "sustainability", "emissions", "decarbonization",
   "lng", "natural gas", "oil price", "commodity", "energy transition"]

/-- Default value of the relevant-tier keyword list in the session state. -/
def defaultRelevant : List String :=
  ["refining", "downstream", "petrochemicals", "marketing",
   "renewable", "solar", "wind", "hydrogen", "electric vehicle",
   "pipeline", "midstream", "transportation", "storage"]

/-- The seeded session state. -/
def defaultStore : KeywordStore :=
  { high := defaultHigh, moderate := defaultModerate, relevant := defaultRelevant }

/-! ### Relevance classifier -/

inductive Relevance where
  | High
  | Moderate
  | Relevant
  | Low
deriving DecidableEq, Repr

/-- The combined search text built at the top of `analyze_slb_relevance`:
title, description and categories, each lowercased, joined by single
spaces. -/
def searchText (s : Story) : String :=
  lowerStr s.title ++ " " ++ lowerStr s.description ++ " " ++ lowerStr s.categories

/-- The per-tier count: sum of 1 over the lowercased keywords of the tier
list that occur in the text.  A keyword occurring in the text counts once
per list entry. -/
def countHits (kws : List String) (text : String) : Nat :=
  ((kws.map lowerStr).filter (fun k => strIn k text)).length

/-- The function `analyze_slb_relevance`, with the keyword store passed
explicitly in place of the session state. -/
def analyze_slb_relevance (ks : KeywordStore) (s : Story) : Relevance :=
  let text := searchText s
  let high_count := countHits ks.high text
  let moderate_count := countHits ks.moderate text
  let relevant_count := countHits ks.relevant text
  if high_count ≥ 2 || strIn "slb" text || strIn "schlumberger" text then .High
  else if high_count ≥ 1 || moderate_count ≥ 2 then .Moderate
  else if moderate_count ≥ 1 || relevant_count ≥ 1 then .Relevant
  else .Low

/-! ### Keyword store operations -/

/-- The add-button handler for a tier: nothing happens on an empty input;
otherwise the lowercased keyword is appended unless it is already present
(case-insensitively) in that same tier. -/
def addKeyword (t : TierName) (kw : String) (ks : KeywordStore) : KeywordStore :=
  if kw = "" then ks
  else if lowerStr kw ∈ (getTier t ks).map lowerStr then ks
  else setTier t (getTier t ks ++ [lowerStr kw]) ks

/-- A tier-move button handler: append the keyword to the destination
list, then remove it from the source list.  The Python list remove
deletes the first occurrence and raises ValueError when the value is
absent; the error branch carries the session state left behind when the
exception propagates (the destination append has already happened). -/
def moveKeyword (kw : String) (src dst : TierName) (ks : KeywordStore) :
    Except KeywordStore KeywordStore :=
  let ks1 := setTier dst (getTier dst ks ++ [kw]) ks
  if kw ∈ getTier src ks1 then
    Except.ok (setTier src ((getTier src ks1).erase kw) ks1)
  else
    Except.error ks1

/-- The session state after a move, whether or not it raised. -/
def moveRun (kw : String) (src dst : TierName) (ks : KeywordStore) : KeywordStore :=
  match moveKeyword kw src dst ks with
  | .ok ks' => ks'
  | .error ks' => ks'

/-- The keyword-management operations offered by the sidebar. -/
inductive Op where
  | add (t : TierName) (kw : String)
  | move (kw : String) (src dst : TierName)
  | reset
deriving DecidableEq, Repr

def applyOp (ks : KeywordStore) : Op → KeywordStore
  | .add t kw => addKeyword t kw ks
  | .move kw src dst => moveRun kw src dst ks
  | .reset => defaultStore

def applyOps (ops : List Op) (ks : KeywordStore) : KeywordStore :=
  ops.foldl applyOp ks

/-- Recognizer for the operations that are not moves. -/
def isAddOrReset : Op → Bool
  | .move _ _ _ => false
  | _ => true

/-! ### Summary generator -/

/-- Sentence-terminating punctuation: dot, bang, question mark. -/
def isPunct (c : Char) : Bool := c == '.' || c == '!' || c == '?'

/-- One step of splitting on maximal runs of punctuation, processed from
the right; the flag records whether the character just to the right was
punctuation. -/
def splitStep (c : Char) (st : Bool × List (List Char)) : Bool × List (List Char) :=
  if isPunct c then
    if st.1 then (true, st.2) else (true, [] :: st.2)
  else
    match st.2 with
    | [] => (false, [[c]])
    | p :: ps => (false, (c :: p) :: ps)

/-- Model of the Python regex split on one-or-more punctuation characters:
the pieces between maximal nonempty runs of dot, bang, question mark,
empty pieces included. -/
def splitPunct (l : List Char) : List (List Char) :=
  (l.foldr splitStep (false, [[]])).2

/-- The accumulation loop of `create_editorial_summary`: break as soon as
the running count plus the next sentence length exceeds 250; otherwise
append the stripped sentence and add the unstripped length to the running
count. -/
def accumSentences : List (List Char) → Nat → List (List Char)
  | [], _ => []
  | s :: ss, cnt =>
    if cnt + s.length > 250 then []
    else stripChars s :: accumSentences ss (cnt + s.length)

/-- The join of the accumulated summary parts with dot-space. -/
def joinedParts (description : List Char) : List Char :=
  List.intercalate ['.', ' '] (accumSentences (splitPunct description) 0)

/-- Python endswith on the three terminators. -/
def endsPunct (l : List Char) : Bool :=
  match l.getLast? with
  | some c => isPunct c
  | none => false

/-- Append a final dot when the text does not already end in a
terminator. -/
def punctFix (l : List Char) : List Char :=
  if endsPunct l then l else l ++ ['.']

/-- The summary local variable of `create_editorial_summary`, just before
the final formatting line. -/
def summaryPortion (s : Story) : List Char :=
  if s.description.length > 300 then punctFix (joinedParts s.description.toList)
  else punctFix (stripChars s.description.toList)

/-- The function `create_editorial_summary`: summary, date and the word
Upstream joined by bar separators. -/
def create_editorial_summary (s : Story) : String :=
  String.mk (summaryPortion s) ++ " | " ++ s.date ++ " | Upstream"

/-! ### Feed parser -/

/-- An XML element as ElementTree exposes it: a tag, the text before the
first child (none when absent), and the child elements in document
order. -/
inductive XmlNode where
  | elem (tag : String) (text : Option String) (children : List XmlNode)

def XmlNode.tag : XmlNode → String
  | .elem t _ _ => t

def XmlNode.text : XmlNode → Option String
  | .elem _ tx _ => tx

def XmlNode.children : XmlNode → List XmlNode
  | .elem _ _ cs => cs

/-- ElementTree find: the first direct child with the given tag. -/
def findChild (n : XmlNode) (tag : String) : Option XmlNode :=
  n.children.find? (fun c => c.tag == tag)

/-- ElementTree findall on a plain tag: all direct children with the
given tag, in order. -/
def findChildren (n : XmlNode) (tag : String) : List XmlNode :=
  n.children.filter (fun c => c.tag == tag)

mutual
/-- Preorder traversal of the subtree rooted at an element, the element
included: ElementTree document order. -/
def iterNode : XmlNode → List XmlNode
  | .elem t tx cs => .elem t tx cs :: iterList cs

def iterList : List XmlNode → List XmlNode
  | [] => []
  | n :: ns => iterNode n ++ iterList ns
end

/-- ElementTree findall with the descendant axis on tag item: every item
element that is a proper descendant of the root, in document order. -/
def findItems (root : XmlNode) : List XmlNode :=
  (iterList root.children).filter (fun n => n.tag == "item")

/-- The truthiness-plus-strip idiom of the parser: stripped element text
when the element exists and its text is nonempty, else the default. -/
def textOrDefault (e : Option XmlNode) (default : String) : String :=
  match e with
  | none => default
  | some n =>
    match n.text with
    | none => default
    | some t => if t = "" then default else stripStr t

/-- ASCII instances of the regex digit class. -/
def isDigitC (c : Char) : Bool := '0' ≤ c && c ≤ '9'

/-- ASCII instances of the regex word class: letters, digits,
underscore. -/
def isWordC (c : Char) : Bool := c.isAlpha || isDigitC c || c == '_'

/-- Matching the tail of the date pattern, space then three word
characters then space then four digits, at the head of the list,
returning the consumed characters. -/
def matchAfterDigits : List Char → Option (List Char)
  | ' ' :: a :: b :: c :: ' ' :: d :: e :: f :: g :: _ =>
    if isWordC a && isWordC b && isWordC c &&
       isDigitC d && isDigitC e && isDigitC f && isDigitC g then
      some (' ' :: a :: b :: c :: ' ' :: d :: e :: f :: g :: [])
    else none
  | _ => none

/-- Matching the full date pattern, one-or-two digits then the tail,
anchored at the head of the list, with the greedy-then-backtrack order of
the Python regex engine (two digits are tried first). -/
def matchAt : List Char → Option (List Char)
  | [] => none
  | [_] => none
  | x :: y :: rest =>
    if isDigitC x then
      if isDigitC y then
        match matchAfterDigits rest with
        | some tail => some (x :: y :: tail)
        | none =>
          match matchAfterDigits (y :: rest) with
          | some tail => some (x :: tail)
          | none => none
      else
        match matchAfterDigits (y :: rest) with
        | some tail => some (x :: tail)
        | none => none
    else none

/-- The regex search for the date pattern: try the anchored match at each
position from the left, returning the first match found. -/
def reSearchDate : List Char → Option (List Char)
  | [] => none
  | x :: rest =>
    match matchAt (x :: rest) with
    | some m => some m
    | none => reSearchDate rest

/-- The date-extraction ladder of `parse_rss_content`: regex match, else
the first 10 characters of the raw text, else Unknown when the pubDate
element is absent or its text is empty. -/
def extractDate (txt : Option String) : String :=
  match txt with
  | none => "Unknown"
  | some t =>
    if t = "" then "Unknown"
    else
      match reSearchDate t.toList with
      | some m => String.mk m
      | none => String.mk (t.toList.take 10)

/-- The category collection loop: stripped text of every category child
whose text is nonempty and strips to a nonempty string, joined with
comma-space. -/
def extractCategories (item : XmlNode) : String :=
  let cats := (findChildren item "category").filterMap (fun c =>
    match c.text with
    | none => none
    | some t =>
      if t = "" then none
      else if stripChars t.toList = [] then none
      else some (stripStr t))
  String.intercalate ", " cats

/-- The body of the parsing loop: one Story record per item element. -/
def storyOfItem (item : XmlNode) : Story :=
  { title := textOrDefault (findChild item "title") "No title"
    link := textOrDefault (findChild item "link") ""
    description := textOrDefault (findChild item "description") ""
    date := extractDate ((findChild item "pubDate").bind XmlNode.text)
    author := textOrDefault (findChild item "author") "Unknown"
    categories := extractCategories item }

/-- The function `parse_rss_content` on an already-parsed document tree
(the parse-error branch of the source corresponds to the document failing
to parse at all, in which case no tree exists and the result is empty). -/
def parse_rss_content (root : XmlNode) : List Story :=
  (findItems root).map storyOfItem

mutual
/-- The number of item elements anywhere in a subtree, the root of the
subtree included (independent recursive count, used as the specification
k of the parser claims). -/
def countItems : XmlNode → Nat
  | .elem t _ cs => (if t == "item" then 1 else 0) + countItemsList cs

def countItemsList : List XmlNode → Nat
  | [] => 0
  | n :: ns => countItems n + countItemsList ns
end

/-! ### Specification-side definitions, following the words of the
claims rather than the source -/

/-- Distinct-keyword count: how many distinct (after lowercasing)
keywords of the tier occur in the text. -/
def countDistinct (kws : List String) (text : String) : Nat :=
  (((kws.map lowerStr).dedup).filter (fun k => strIn k text)).length

/-- Claim C1 reading of the classifier: the same ladder, with per-tier
counts of distinct keywords. -/
def claimClassifyC1 (ks : KeywordStore) (s : Story) : Relevance :=
  let text := searchText s
  let high_count := countDistinct ks.high text
  let moderate_count := countDistinct ks.moderate text
  let relevant_count := countDistinct ks.relevant text
  if high_count ≥ 2 || strIn "slb" text || strIn "schlumberger" text then .High
  else if high_count ≥ 1 || moderate_count ≥ 2 then .Moderate
  else if moderate_count ≥ 1 || relevant_count ≥ 1 then .Relevant
  else .Low

/-- Claim C8 reading of the accumulation loop: the sentences themselves
are accumulated, with no stripping. -/
def accumClaimC8 : List (List Char) → Nat → List (List Char)
  | [], _ => []
  | s :: ss, cnt =>
    if cnt + s.length > 250 then []
    else s :: accumClaimC8 ss (cnt + s.length)

/-- Claim C8 reading of the pre-fixup summary: the unstripped greedy
accumulation joined with dot-space. -/
def claimJoinedC8 (description : List Char) : List Char :=
  List.intercalate ['.', ' '] (accumClaimC8 (splitPunct description) 0)

/-- A list of characters that is an instance of the date pattern actually
compiled by the source: one or two digits, space, three word characters,
space, four digits. -/
def datePat (m : List Char) : Bool :=
  match m with
  | [a, b, ' ', c, d, e, ' ', f, g, h, i] =>
    isDigitC a && isDigitC b && isWordC c && isWordC d && isWordC e &&
    isDigitC f && isDigitC g && isDigitC h && isDigitC i
  | [a, ' ', c, d, e, ' ', f, g, h, i] =>
    isDigitC a && isWordC c && isWordC d && isWordC e &&
    isDigitC f && isDigitC g && isDigitC h && isDigitC i
  | _ => false

/-- A list of characters that is an instance of the date pattern as claim
C6 words it: one or two digits, space, a three-letter month abbreviation
(in particular three letters), space, four digits. -/
def dateClaimPat (m : List Char) : Bool :=
  match m with
  | [a, b, ' ', c, d, e, ' ', f, g, h, i] =>
    isDigitC a && isDigitC b && c.isAlpha && d.isAlpha && e.isAlpha &&
    isDigitC f && isDigitC g && isDigitC h && isDigitC i
  | [a, ' ', c, d, e, ' ', f, g, h, i] =>
    isDigitC a && c.isAlpha && d.isAlpha && e.isAlpha &&
    isDigitC f && isDigitC g && isDigitC h && isDigitC i
  | _ => false

/-- Total length of a list of sentences. -/
def lensSum (pieces : List (List Char)) : Nat := (pieces.map List.length).sum

/-! ### Concrete inputs used by counterexamples and witnesses -/

/-- A story whose only keyword-like content is the nonsense token zzz. -/
def storyZzz : Story :=
  { title := "zzz update", link := "", description := "", date := "Unknown",
    author := "Unknown", categories := "" }

/-- The keyword store reached from the default store by adding zzz to the
moderate tier and moving it to the high tier, twice: the high tier then
holds zzz twice. -/
def storeDupZzz : KeywordStore :=
  applyOps [Op.add TierName.moderate "zzz",
            Op.move "zzz" TierName.moderate TierName.high,
            Op.add TierName.moderate "zzz",
            Op.move "zzz" TierName.moderate TierName.high] defaultStore

/-- The keyword store reached from the default store by adding zzz to the
moderate tier, moving it to the high tier, and adding it to the moderate
tier again: zzz is then present in two tiers at once. -/
def storeZzzBoth : KeywordStore :=
  applyOps [Op.add TierName.moderate "zzz",
            Op.move "zzz" TierName.moderate TierName.high,
            Op.add TierName.moderate "zzz"] defaultStore

/-- A story with every text field empty. -/
def storyEmpty : Story :=
  { title := "", link := "", description := "", date := "Unknown",
    author := "Unknown", categories := "" }

/-- A 353-character description: 100 x characters, a dot-space, 99 y
characters, a dot-space, 150 z characters.  Its second sentence starts
with a space, so stripping is observable; the third sentence overflows
the 250-character budget. -/
def descLong : String :=
  String.mk (List.replicate 100 'x' ++
    '.' :: ' ' :: List.replicate 99 'y' ++
    '.' :: ' ' :: List.replicate 150 'z')

/-- A story carrying the long description. -/
def storyLong : Story :=
  { title := "t", link := "", description := descLong, date := "20 Jun 2025",
    author := "a", categories := "" }

/-- A feed document with three item elements: two under the channel, one
of them containing a further nested item. -/
def docThreeItems : XmlNode :=
  .elem "rss" none
    [.elem "channel" none
      [.elem "item" none [.elem "title" (some "A") []],
       .elem "item" none [.elem "item" none []]]]

/-! ## Theorems -/

/-! ### Generic helper lemmas -/

theorem charToNat_ofNat (n : Nat) (h : n.isValidChar) : (Char.ofNat n).toNat = n := by
  simp only [Char.ofNat, h, dif_pos]
  rfl

theorem lowerChar_idem (c : Char) : lowerChar (lowerChar c) = lowerChar c := by
  unfold lowerChar
  by_cases h : 65 ≤ c.toNat ∧ c.toNat ≤ 90
  · simp only [if_pos h]
    rw [if_neg]
    rw [charToNat_ofNat _ (Or.inl (by omega))]
    omega
  · simp only [if_neg h]

theorem lowerStr_idem (s : String) : lowerStr (lowerStr s) = lowerStr s := by
  unfold lowerStr
  congr 1
  show List.map lowerChar (List.map lowerChar s.data) = List.map lowerChar s.data
  rw [List.map_map]
  exact List.map_congr_left fun c _ => lowerChar_idem c

theorem getTier_setTier_same (t : TierName) (l : List String) (ks : KeywordStore) :
    getTier t (setTier t l ks) = l := by
  cases t <;> rfl

theorem getTier_setTier_ne (t t' : TierName) (l : List String) (ks : KeywordStore)
    (h : t ≠ t') : getTier t (setTier t' l ks) = getTier t ks := by
  cases t <;> cases t' <;> first | rfl | exact absurd rfl h

theorem endsPunct_punctFix (l : List Char) : endsPunct (punctFix l) = true := by
  unfold punctFix
  by_cases h : endsPunct l
  · simp [h]
  · simp only [h, if_false, Bool.false_eq_true]
    unfold endsPunct
    rw [List.getLast?_concat]
    rfl

/-! ### Claim C1 -/

/-- Claim C1 as stated is false at a concrete reachable input: after the
high tier has come to contain the keyword zzz twice, a story mentioning
zzz once (and no other keyword, nor the name overrides) is classified
High by the code, while the ladder over distinct keyword counts yields
Moderate. -/
theorem claim_C1_counterexample :
    analyze_slb_relevance storeDupZzz storyZzz = Relevance.High ∧
    claimClassifyC1 storeDupZzz storyZzz = Relevance.Moderate := by
  constructor <;> decide

/-- Claim C1, amended: when no tier contains a (case-insensitive)
duplicate keyword, the classifier agrees with the ladder of claim C1 read
over distinct keyword counts: High when at least two distinct high-tier
keywords occur or the literal substrings slb or schlumberger occur;
otherwise Moderate when the high count is at least 1 or the moderate
count at least 2; otherwise Relevant when the moderate or relevant count
is at least 1; otherwise Low. -/
theorem claim_C1_amended (ks : KeywordStore) (s : Story)
    (hh : (ks.high.map lowerStr).Nodup) (hm : (ks.moderate.map lowerStr).Nodup)
    (hr : (ks.relevant.map lowerStr).Nodup) :
    analyze_slb_relevance ks s = claimClassifyC1 ks s := by
  unfold analyze_slb_relevance claimClassifyC1 countHits countDistinct
  rw [List.dedup_eq_self.mpr hh, List.dedup_eq_self.mpr hm, List.dedup_eq_self.mpr hr]

/-- Witness for the amended claim C1 at the default store. -/
theorem claim_C1_witness :
    ((defaultStore.high.map lowerStr).Nodup ∧
     (defaultStore.moderate.map lowerStr).Nodup ∧
     (defaultStore.relevant.map lowerStr).Nodup) ∧
    analyze_slb_relevance defaultStore storyZzz = claimClassifyC1 defaultStore storyZzz :=
  ⟨⟨by decide, by decide, by decide⟩,
   claim_C1_amended defaultStore storyZzz (by decide) (by decide) (by decide)⟩

/-! ### Claim C5 -/

/-- Claim C5 as stated is false at a concrete input: the returned string
always ends in the word Upstream, not in terminal punctuation. -/
theorem claim_C5_counterexample :
    create_editorial_summary storyEmpty = ". | Unknown | Upstream" ∧
    endsPunct (create_editorial_summary storyEmpty).toList = false := by
  constructor <;> decide

/-- Claim C5, amended: the returned string is of the shape summary, bar,
date, bar, Upstream, and the summary portion (not the whole string)
always ends in one of the three terminators. -/
theorem claim_C5_amended (s : Story) :
    create_editorial_summary s =
      String.mk (summaryPortion s) ++ " | " ++ s.date ++ " | Upstream" ∧
    endsPunct (summaryPortion s) = true := by
  refine ⟨rfl, ?_⟩
  unfold summaryPortion
  by_cases h : s.description.length > 300 <;> simp [h, endsPunct_punctFix]

/-! ### Claim C3 -/

theorem addKeyword_nodup (t' : TierName) (kw : String) (ks : KeywordStore)
    (h : ∀ t, ((getTier t ks).map lowerStr).Nodup) :
    ∀ t, ((getTier t (addKeyword t' kw ks)).map lowerStr).Nodup := by
  intro t
  unfold addKeyword
  split
  · exact h t
  · split
    · exact h t
    · rename_i hmem
      by_cases ht : t = t'
      · subst ht
        rw [getTier_setTier_same, List.map_append]
        simp only [List.map_cons, List.map_nil, lowerStr_idem]
        rw [List.nodup_append]
        refine ⟨h t, List.nodup_singleton _, ?_⟩
        simp only [List.disjoint_singleton]
        exact hmem
      · rw [getTier_setTier_ne t t' _ _ ht]
        exact h t

theorem applyOps_nodup : ∀ (ops : List Op) (ks : KeywordStore),
    (∀ o ∈ ops, isAddOrReset o = true) →
    (∀ t, ((getTier t ks).map lowerStr).Nodup) →
    ∀ t, ((getTier t (applyOps ops ks)).map lowerStr).Nodup
  | [], _, _, h => h
  | o :: os, ks, hops, h => by
    have step : ∀ t, ((getTier t (applyOp ks o)).map lowerStr).Nodup := by
      cases o with
      | add t' kw => exact addKeyword_nodup t' kw ks h
      | move kw s d =>
        have := hops _ (List.mem_cons_self _ _)
        simp [isAddOrReset] at this
      | reset =>
        intro t
        show ((getTier t defaultStore).map lowerStr).Nodup
        cases t <;> decide
    have : applyOps (o :: os) ks = applyOps os (applyOp ks o) := rfl
    rw [this]
    exact applyOps_nodup os (applyOp ks o)
      (fun o' h' => hops o' (List.mem_cons_of_mem _ h')) step

/-- Claim C3 as stated is false at a concrete input: one single add
operation on the default store puts the keyword exploration into the high
tier while it is already in the moderate tier, so it then appears in two
tiers. -/
theorem claim_C3_counterexample :
    "exploration" ∈ (applyOps [Op.add TierName.high "exploration"] defaultStore).high ∧
    "exploration" ∈ (applyOps [Op.add TierName.high "exploration"] defaultStore).moderate := by
  constructor <;> decide

/-- Claim C3, amended: the add operation deduplicates only within its
target tier, so what is preserved from the default vocabulary under every
finite sequence of add and reset operations is that each keyword appears
(case-insensitively) at most once within each single tier; cross-tier
uniqueness does not hold, and move operations can duplicate a keyword
even inside one tier. -/
theorem claim_C3_amended (ops : List Op) (h : ∀ o ∈ ops, isAddOrReset o = true) :
    ∀ t, ((getTier t (applyOps ops defaultStore)).map lowerStr).Nodup :=
  applyOps_nodup ops defaultStore h (by intro t; cases t <;> decide)

/-- Witness for the amended claim C3 on a small operation sequence. -/
theorem claim_C3_witness :
    (∀ o ∈ [Op.add TierName.high "zzz", Op.reset, Op.add TierName.moderate "Abc"],
      isAddOrReset o = true) ∧
    ∀ t, ((getTier t (applyOps
        [Op.add TierName.high "zzz", Op.reset, Op.add TierName.moderate "Abc"]
        defaultStore)).map lowerStr).Nodup :=
  ⟨by decide, claim_C3_amended _ (by decide)⟩

/-! ### Claim C4 -/

/-- Claim C4 as stated is false at a concrete input: moving a keyword
that is absent from the source tier is not a silent no-op; the operation
raises (error) and the destination tier has already been extended. -/
theorem claim_C4_counterexample :
    moveKeyword "zzz" TierName.high TierName.moderate defaultStore =
      Except.error { high := defaultHigh,
                     moderate := defaultModerate ++ ["zzz"],
                     relevant := defaultRelevant } := by
  rfl

/-- Claim C4, amended: when the keyword has no exact match in the source
tier (and the two tiers differ), the move raises ValueError after having
already appended the keyword to the destination tier; every other tier is
unchanged. -/
theorem claim_C4_amended (ks : KeywordStore) (kw : String) (src dst : TierName)
    (hne : src ≠ dst) (h : kw ∉ getTier src ks) :
    ∃ ks', moveKeyword kw src dst ks = Except.error ks' ∧
      getTier dst ks' = getTier dst ks ++ [kw] ∧
      ∀ t, t ≠ dst → getTier t ks' = getTier t ks := by
  refine ⟨setTier dst (getTier dst ks ++ [kw]) ks, ?_, ?_, ?_⟩
  · simp only [moveKeyword]
    rw [getTier_setTier_ne src dst _ _ hne]
    simp [h]
  · rw [getTier_setTier_same]
  · intro t ht
    rw [getTier_setTier_ne t dst _ _ ht]

/-- Witness for the amended claim C4 on the default store. -/
theorem claim_C4_witness :
    (TierName.high ≠ TierName.moderate ∧
     "zzz" ∉ getTier TierName.high defaultStore) ∧
    ∃ ks', moveKeyword "zzz" TierName.high TierName.moderate defaultStore =
        Except.error ks' ∧
      getTier TierName.moderate ks' =
        getTier TierName.moderate defaultStore ++ ["zzz"] ∧
      ∀ t, t ≠ TierName.moderate → getTier t ks' = getTier t defaultStore :=
  ⟨⟨by decide, by decide⟩,
   claim_C4_amended defaultStore "zzz" TierName.high TierName.moderate
     (by decide) (by decide)⟩

/-! ### Claims C9 and C10: list membership helpers -/

theorem mem_erase_append_self (l : List String) (kw x : String) (hkw : kw ∈ l) :
    x ∈ l.erase kw ++ [kw] ↔ x ∈ l := by
  simp only [List.mem_append, List.mem_singleton]
  constructor
  · rintro (hx | rfl)
    · exact List.mem_of_mem_erase hx
    · exact hkw
  · intro hx
    by_cases hxk : x = kw
    · right; exact hxk
    · left; exact (List.mem_erase_of_ne hxk).mpr hx

theorem mem_append_singleton_erase (l : List String) (kw x : String) :
    x ∈ (l ++ [kw]).erase kw ↔ x ∈ l := by
  by_cases hkw : kw ∈ l
  · rw [List.erase_append_left _ hkw]
    exact mem_erase_append_self l kw x hkw
  · rw [List.erase_append_right _ hkw]
    simp

/-! ### Claim C9 -/

/-- Claim C9: moving a keyword from tier A to tier B and back restores
the membership of every tier (both moves succeed, and each tier contains
exactly the same keywords as before). -/
theorem claim_C9_theorem (ks : KeywordStore) (kw : String) (A B : TierName)
    (h : kw ∈ getTier A ks) :
    ∃ ks1 ks2, moveKeyword kw A B ks = Except.ok ks1 ∧
      moveKeyword kw B A ks1 = Except.ok ks2 ∧
      ∀ t x, x ∈ getTier t ks2 ↔ x ∈ getTier t ks := by
  by_cases hAB : A = B
  · subst hAB
    have e1 : moveKeyword kw A A ks =
        Except.ok (setTier A ((getTier A ks ++ [kw]).erase kw)
          (setTier A (getTier A ks ++ [kw]) ks)) := by
      simp only [moveKeyword, getTier_setTier_same]
      rw [if_pos (by simp)]
    set ks1 := setTier A ((getTier A ks ++ [kw]).erase kw)
      (setTier A (getTier A ks ++ [kw]) ks) with hks1
    have hA1 : getTier A ks1 = (getTier A ks ++ [kw]).erase kw := by
      rw [hks1, getTier_setTier_same]
    have e2 : moveKeyword kw A A ks1 =
        Except.ok (setTier A ((getTier A ks1 ++ [kw]).erase kw)
          (setTier A (getTier A ks1 ++ [kw]) ks1)) := by
      simp only [moveKeyword, getTier_setTier_same]
      rw [if_pos (by simp)]
    refine ⟨_, _, e1, e2, ?_⟩
    intro t x
    by_cases ht : t = A
    · subst ht
      rw [getTier_setTier_same, hA1]
      rw [mem_append_singleton_erase, mem_append_singleton_erase]
    · rw [getTier_setTier_ne t A _ _ ht, getTier_setTier_ne t A _ _ ht, hks1,
          getTier_setTier_ne t A _ _ ht, getTier_setTier_ne t A _ _ ht]
  · have hBA : B ≠ A := Ne.symm hAB
    have e1 : moveKeyword kw A B ks =
        Except.ok (setTier A ((getTier A ks).erase kw)
          (setTier B (getTier B ks ++ [kw]) ks)) := by
      simp only [moveKeyword]
      rw [getTier_setTier_ne A B _ _ hAB]
      rw [if_pos h]
    set ks1 := setTier A ((getTier A ks).erase kw)
      (setTier B (getTier B ks ++ [kw]) ks) with hks1
    have hA1 : getTier A ks1 = (getTier A ks).erase kw := by
      rw [hks1, getTier_setTier_same]
    have hB1 : getTier B ks1 = getTier B ks ++ [kw] := by
      rw [hks1, getTier_setTier_ne B A _ _ hBA, getTier_setTier_same]
    have e2 : moveKeyword kw B A ks1 =
        Except.ok (setTier B ((getTier B ks1).erase kw)
          (setTier A (getTier A ks1 ++ [kw]) ks1)) := by
      simp only [moveKeyword]
      rw [getTier_setTier_ne B A _ _ hBA]
      rw [if_pos (by rw [hB1]; exact List.mem_append_right _ (List.mem_singleton.mpr rfl))]
    refine ⟨_, _, e1, e2, ?_⟩
    intro t x
    by_cases htB : t = B
    · subst htB
      rw [getTier_setTier_same, hB1]
      exact mem_append_singleton_erase _ _ _
    · by_cases htA : t = A
      · rw [htA]
        rw [getTier_setTier_ne A B _ _ hAB, getTier_setTier_same, hA1]
        exact mem_erase_append_self _ _ _ h
      · rw [getTier_setTier_ne t B _ _ htB, getTier_setTier_ne t A _ _ htA, hks1,
            getTier_setTier_ne t A _ _ htA, getTier_setTier_ne t B _ _ htB]

/-- Witness for claim C9: moving drilling from the high to the moderate
tier of the default store and back restores all memberships. -/
theorem claim_C9_witness :
    ("drilling" ∈ getTier TierName.high defaultStore) ∧
    ∃ ks1 ks2, moveKeyword "drilling" TierName.high TierName.moderate defaultStore =
        Except.ok ks1 ∧
      moveKeyword "drilling" TierName.moderate TierName.high ks1 = Except.ok ks2 ∧
      ∀ t x, x ∈ getTier t ks2 ↔ x ∈ getTier t defaultStore :=
  ⟨by decide,
   claim_C9_theorem defaultStore "drilling" TierName.high TierName.moderate (by decide)⟩

/-! ### Claim C10 -/

/-- Claim C10: moves append to the destination tier without a duplicate
check, so a keyword already present in the destination ends up there
twice; the per-tier counts count list entries, so a text containing that
keyword (once or more) then contributes 2 to the tier count. -/
theorem claim_C10_theorem (ks : KeywordStore) (kw : String) (src dst : TierName)
    (hne : src ≠ dst) (hsrc : kw ∈ getTier src ks) (hdst : kw ∈ getTier dst ks) :
    ∃ ks', moveKeyword kw src dst ks = Except.ok ks' ∧
      2 ≤ (getTier dst ks').count kw ∧
      ∀ text : String, strIn (lowerStr kw) text = true →
        2 ≤ countHits (getTier dst ks') text := by
  have e1 : moveKeyword kw src dst ks =
      Except.ok (setTier src ((getTier src ks).erase kw)
        (setTier dst (getTier dst ks ++ [kw]) ks)) := by
    simp only [moveKeyword]
    rw [getTier_setTier_ne src dst _ _ hne]
    rw [if_pos hsrc]
  refine ⟨_, e1, ?_, ?_⟩
  · rw [getTier_setTier_ne dst src _ _ (Ne.symm hne), getTier_setTier_same]
    rw [List.count_append]
    have h1 : 0 < (getTier dst ks).count kw := List.count_pos_iff.mpr hdst
    have h2 : List.count kw [kw] = 1 := by simp
    omega
  · intro text htext
    rw [getTier_setTier_ne dst src _ _ (Ne.symm hne), getTier_setTier_same]
    unfold countHits
    have hcount : 2 ≤ ((getTier dst ks ++ [kw]).map lowerStr).count (lowerStr kw) := by
      rw [List.map_append, List.count_append]
      have hm : lowerStr kw ∈ (getTier dst ks).map lowerStr :=
        List.mem_map_of_mem _ hdst
      have h1 : 0 < ((getTier dst ks).map lowerStr).count (lowerStr kw) :=
        List.count_pos_iff.mpr hm
      have h2 : (List.map lowerStr [kw]).count (lowerStr kw) = 1 := by simp
      omega
    calc 2 ≤ ((getTier dst ks ++ [kw]).map lowerStr).count (lowerStr kw) := hcount
      _ = (((getTier dst ks ++ [kw]).map lowerStr).filter
            (fun k => strIn k text)).count (lowerStr kw) := by
          rw [List.count_filter]
          simp [htext]
      _ ≤ (((getTier dst ks ++ [kw]).map lowerStr).filter
            (fun k => strIn k text)).length := List.count_le_length _ _

/-- Witness for claim C10 on a store reachable from the defaults in which
zzz sits in both the moderate and the high tier. -/
theorem claim_C10_witness :
    (TierName.moderate ≠ TierName.high ∧
     "zzz" ∈ getTier TierName.moderate storeZzzBoth ∧
     "zzz" ∈ getTier TierName.high storeZzzBoth) ∧
    ∃ ks', moveKeyword "zzz" TierName.moderate TierName.high storeZzzBoth =
        Except.ok ks' ∧
      2 ≤ (getTier TierName.high ks').count "zzz" ∧
      ∀ text : String, strIn (lowerStr "zzz") text = true →
        2 ≤ countHits (getTier TierName.high ks') text :=
  ⟨⟨by decide, by decide, by decide⟩,
   claim_C10_theorem storeZzzBoth "zzz" TierName.moderate TierName.high
     (by decide) (by decide) (by decide)⟩

/-! ### Claim C8 -/

theorem accumSentences_characterization :
    ∀ (pieces : List (List Char)) (cnt : Nat), cnt ≤ 250 →
    ∃ k, k ≤ pieces.length ∧
      accumSentences pieces cnt = (pieces.take k).map stripChars ∧
      cnt + lensSum (pieces.take k) ≤ 250 ∧
      (k = pieces.length ∨ 250 < cnt + lensSum (pieces.take (k + 1)))
  | [], cnt, h => ⟨0, by simp [accumSentences, lensSum, h]⟩
  | s :: ss, cnt, h => by
    by_cases hs : cnt + s.length > 250
    · refine ⟨0, by simp, ?_, ?_, ?_⟩
      · unfold accumSentences
        rw [if_pos hs]
        rfl
      · simpa [lensSum] using h
      · right
        simpa [lensSum] using hs
    · have h' : cnt + s.length ≤ 250 := by omega
      obtain ⟨k, hk, hacc, hsum, hlast⟩ :=
        accumSentences_characterization ss (cnt + s.length) h'
      refine ⟨k + 1, by simpa using hk, ?_, ?_, ?_⟩
      · unfold accumSentences
        rw [if_neg hs]
        simp only [List.take_succ_cons, List.map_cons]
        rw [hacc]
      · simp only [List.take_succ_cons, lensSum, List.map_cons, List.sum_cons]
        simp only [lensSum] at hsum
        omega
      · rcases hlast with he | hgt
        · left
          simp [he]
        · right
          simp only [List.take_succ_cons, lensSum, List.map_cons, List.sum_cons]
          simp only [lensSum] at hgt
          omega

/-- Claim C8 as stated is false at a concrete input: with a 353-character
description whose second sentence starts with a space, the code joins the
stripped sentences, so the produced summary differs from the join of the
raw sentences demanded by the claim. -/
theorem claim_C8_counterexample :
    summaryPortion storyLong ≠ punctFix (claimJoinedC8 storyLong.description.toList) := by
  decide

/-- Claim C8, amended: for a description longer than 300 characters the
summary portion is the terminal-punctuation fixup of the greedy
accumulation of the whitespace-stripped sentences re-joined with
dot-space, where the 250-character budget counts the unstripped sentence
lengths: the accumulated prefix fits the budget and stops right before
the first sentence that would push the running count over 250 (so in
particular it is empty when the very first sentence alone exceeds
250). -/
theorem claim_C8_amended (s : Story) (h : 300 < s.description.length) :
    ∃ k, k ≤ (splitPunct s.description.toList).length ∧
      lensSum ((splitPunct s.description.toList).take k) ≤ 250 ∧
      (k = (splitPunct s.description.toList).length ∨
        250 < lensSum ((splitPunct s.description.toList).take (k + 1))) ∧
      summaryPortion s =
        punctFix (List.intercalate ['.', ' ']
          (((splitPunct s.description.toList).take k).map stripChars)) := by
  obtain ⟨k, hk, hacc, hsum, hlast⟩ :=
    accumSentences_characterization (splitPunct s.description.toList) 0 (by omega)
  refine ⟨k, hk, by simpa using hsum, by simpa using hlast, ?_⟩
  unfold summaryPortion
  rw [if_pos h]
  unfold joinedParts
  rw [hacc]

/-- Witness for the amended claim C8 on the long story. -/
theorem claim_C8_witness :
    (300 < storyLong.description.length) ∧
    ∃ k, k ≤ (splitPunct storyLong.description.toList).length ∧
      lensSum ((splitPunct storyLong.description.toList).take k) ≤ 250 ∧
      (k = (splitPunct storyLong.description.toList).length ∨
        250 < lensSum ((splitPunct storyLong.description.toList).take (k + 1))) ∧
      summaryPortion storyLong =
        punctFix (List.intercalate ['.', ' ']
          (((splitPunct storyLong.description.toList).take k).map stripChars)) :=
  ⟨by decide, claim_C8_amended storyLong (by decide)⟩

/-! ### Claim C6: the date regular expression -/

theorem matchAfterDigits_some {r tail : List Char} (h : matchAfterDigits r = some tail) :
    ∃ a b c d e f g rest, r = ' ' :: a :: b :: c :: ' ' :: d :: e :: f :: g :: rest ∧
      tail = [' ', a, b, c, ' ', d, e, f, g] ∧
      (isWordC a && isWordC b && isWordC c &&
       isDigitC d && isDigitC e && isDigitC f && isDigitC g) = true := by
  unfold matchAfterDigits at h
  split at h
  · rename_i a b c d e f g rest
    split at h
    · rename_i hcond
      injection h with h'
      exact ⟨a, b, c, d, e, f, g, rest, rfl, h'.symm, hcond⟩
    · cases h
  · cases h

theorem matchAfterDigits_of_shape (a b c d e f g : Char) (rest : List Char)
    (h : (isWordC a && isWordC b && isWordC c &&
          isDigitC d && isDigitC e && isDigitC f && isDigitC g) = true) :
    matchAfterDigits (' ' :: a :: b :: c :: ' ' :: d :: e :: f :: g :: rest) =
      some [' ', a, b, c, ' ', d, e, f, g] := by
  simp only [matchAfterDigits]
  rw [if_pos h]

theorem datePat_elim {m : List Char} (hm : datePat m = true) :
    (∃ x1 x2 w1 w2 w3 d1 d2 d3 d4,
       m = [x1, x2, ' ', w1, w2, w3, ' ', d1, d2, d3, d4] ∧
       (isDigitC x1 && isDigitC x2 && isWordC w1 && isWordC w2 && isWordC w3 &&
        isDigitC d1 && isDigitC d2 && isDigitC d3 && isDigitC d4) = true) ∨
    (∃ x1 w1 w2 w3 d1 d2 d3 d4,
       m = [x1, ' ', w1, w2, w3, ' ', d1, d2, d3, d4] ∧
       (isDigitC x1 && isWordC w1 && isWordC w2 && isWordC w3 &&
        isDigitC d1 && isDigitC d2 && isDigitC d3 && isDigitC d4) = true) := by
  unfold datePat at hm
  split at hm
  · left
    exact ⟨_, _, _, _, _, _, _, _, _, rfl, hm⟩
  · right
    exact ⟨_, _, _, _, _, _, _, _, rfl, hm⟩
  · cases hm

theorem matchAt_some {l m : List Char} (h : matchAt l = some m) :
    datePat m = true ∧ m <+: l := by
  unfold matchAt at h
  split at h
  · cases h
  · cases h
  · rename_i x y rest
    split at h
    · rename_i hx
      split at h
      · rename_i hy
        split at h
        · rename_i tail htail
          injection h with h'
          subst h'
          obtain ⟨a, b, c, d, e, f, g, rest', hr, htl, hcond⟩ :=
            matchAfterDigits_some htail
          subst htl
          subst hr
          constructor
          · simp only [datePat]
            simp only [Bool.and_eq_true] at hcond ⊢
            exact ⟨⟨⟨⟨⟨⟨⟨⟨hx, hy⟩, hcond.1.1.1.1.1.1⟩, hcond.1.1.1.1.1.2⟩,
              hcond.1.1.1.1.2⟩, hcond.1.1.1.2⟩, hcond.1.1.2⟩, hcond.1.2⟩, hcond.2⟩
          · exact ⟨rest', rfl⟩
        · rename_i hnone
          split at h
          · rename_i tail htail
            injection h with h'
            subst h'
            obtain ⟨a, b, c, d, e, f, g, rest', hr, htl, hcond⟩ :=
              matchAfterDigits_some htail
            subst htl
            have hy' : y = ' ' := by
              have := congrArg (fun l => l.head?) hr
              simpa using this
            have hrest : rest = a :: b :: c :: ' ' :: d :: e :: f :: g :: rest' := by
              have := congrArg (fun l => l.tail) hr
              simpa using this
            subst hy'
            subst hrest
            constructor
            · simp only [datePat]
              simp only [Bool.and_eq_true] at hcond ⊢
              exact ⟨⟨⟨⟨⟨⟨⟨hx, hcond.1.1.1.1.1.1⟩, hcond.1.1.1.1.1.2⟩,
                hcond.1.1.1.1.2⟩, hcond.1.1.1.2⟩, hcond.1.1.2⟩, hcond.1.2⟩, hcond.2⟩
            · exact ⟨rest', rfl⟩
          · cases h
      · rename_i hy
        split at h
        · rename_i tail htail
          injection h with h'
          subst h'
          obtain ⟨a, b, c, d, e, f, g, rest', hr, htl, hcond⟩ :=
            matchAfterDigits_some htail
          subst htl
          have hy' : y = ' ' := by
            have := congrArg (fun l => l.head?) hr
            simpa using this
          have hrest : rest = a :: b :: c :: ' ' :: d :: e :: f :: g :: rest' := by
            have := congrArg (fun l => l.tail) hr
            simpa using this
          subst hy'
          subst hrest
          constructor
          · simp only [datePat]
            simp only [Bool.and_eq_true] at hcond ⊢
            exact ⟨⟨⟨⟨⟨⟨⟨hx, hcond.1.1.1.1.1.1⟩, hcond.1.1.1.1.1.2⟩,
              hcond.1.1.1.1.2⟩, hcond.1.1.1.2⟩, hcond.1.1.2⟩, hcond.1.2⟩, hcond.2⟩
          · exact ⟨rest', rfl⟩
        · cases h
    · cases h

theorem matchAt_complete {l m : List Char} (hm : datePat m = true) (hp : m <+: l) :
    ∃ m', matchAt l = some m' := by
  obtain ⟨t, ht⟩ := hp
  rcases datePat_elim hm with
    ⟨x1, x2, w1, w2, w3, d1, d2, d3, d4, hshape, hcond⟩ |
    ⟨x1, w1, w2, w3, d1, d2, d3, d4, hshape, hcond⟩
  · subst hshape
    subst ht
    simp only [Bool.and_eq_true] at hcond
    obtain ⟨⟨⟨⟨⟨⟨⟨⟨hx1, hx2⟩, hw1⟩, hw2⟩, hw3⟩, hd1⟩, hd2⟩, hd3⟩, hd4⟩ := hcond
    refine ⟨x1 :: x2 :: [' ', w1, w2, w3, ' ', d1, d2, d3, d4], ?_⟩
    simp only [List.cons_append, List.nil_append]
    simp only [matchAt]
    rw [if_pos hx1, if_pos hx2,
        matchAfterDigits_of_shape w1 w2 w3 d1 d2 d3 d4 t
          (by simp [hw1, hw2, hw3, hd1, hd2, hd3, hd4])]
  · subst hshape
    subst ht
    simp only [Bool.and_eq_true] at hcond
    obtain ⟨⟨⟨⟨⟨⟨⟨hx1, hw1⟩, hw2⟩, hw3⟩, hd1⟩, hd2⟩, hd3⟩, hd4⟩ := hcond
    refine ⟨x1 :: [' ', w1, w2, w3, ' ', d1, d2, d3, d4], ?_⟩
    simp only [List.cons_append, List.nil_append]
    simp only [matchAt]
    rw [if_pos hx1, if_neg (by decide),
        matchAfterDigits_of_shape w1 w2 w3 d1 d2 d3 d4 t
          (by simp [hw1, hw2, hw3, hd1, hd2, hd3, hd4])]

theorem reSearchDate_some : ∀ {l m : List Char}, reSearchDate l = some m →
    datePat m = true ∧ ∃ p s, l = p ++ m ++ s ∧
      ∀ p' m' s', l = p' ++ m' ++ s' → datePat m' = true → p.length ≤ p'.length := by
  intro l
  induction l with
  | nil => intro m h; cases h
  | cons x rest ih =>
    intro m h
    unfold reSearchDate at h
    split at h
    · rename_i m0 hm0
      injection h with h'
      subst h'
      obtain ⟨hdp, t, ht⟩ := matchAt_some hm0
      refine ⟨hdp, [], t, by simp [← ht], ?_⟩
      intro p' m' s' _ _
      exact Nat.zero_le _
    · rename_i hnone
      obtain ⟨hdp, p, s, hl, hleft⟩ := ih h
      refine ⟨hdp, x :: p, s, by simp [hl], ?_⟩
      intro p' m' s' heq hdp'
      cases p' with
      | nil =>
        exfalso
        simp only [List.nil_append] at heq
        obtain ⟨mm, hmm⟩ := matchAt_complete hdp' ⟨s', heq.symm⟩
        rw [hnone] at hmm
        cases hmm
      | cons a p'' =>
        simp only [List.cons_append, List.cons.injEq] at heq
        have := hleft p'' m' s' heq.2 hdp'
        simpa using Nat.succ_le_succ this

theorem reSearchDate_none : ∀ {l : List Char}, reSearchDate l = none →
    ∀ m, datePat m = true → ¬ m <:+: l := by
  intro l
  induction l with
  | nil =>
    intro _ m hdp hinf
    rw [ List.infix_nil] at hinf
    subst hinf
    cases hdp
  | cons x rest ih =>
    intro h m hdp hinf
    unfold reSearchDate at h
    split at h
    · cases h
    · rename_i hnone
      rcases List.infix_cons_iff.mp hinf with hpre | hinf'
      · obtain ⟨mm, hmm⟩ := matchAt_complete hdp hpre
        rw [hnone] at hmm
        cases hmm
      · exact ih h m hdp hinf'

/-- Claim C6 as stated is false at a concrete input: on the raw pubDate
text 99 999 9999 the code extracts the full 11-character string, because
the compiled pattern accepts any three word characters (here 999) where
the claim demands a three-letter month abbreviation; under the claim no
substring matches, so the claim demands the 10-character truncation
instead. -/
theorem claim_C6_counterexample :
    extractDate (some "99 999 9999") = "99 999 9999" ∧
    "99 999 9999" ≠ String.mk (("99 999 9999" : String).toList.take 10) ∧
    ∀ m, m <:+: ("99 999 9999" : String).toList → dateClaimPat m = false := by
  refine ⟨by decide, by decide, ?_⟩
  intro m hm
  have hfin : ∀ t' ∈ ("99 999 9999" : String).toList.tails,
      ∀ m' ∈ t'.inits, dateClaimPat m' = false := by decide
  obtain ⟨t', hp, hs⟩ := List.infix_iff_prefix_suffix.mp hm
  exact hfin t' (( List.mem_tails t' _).mpr hs) m (( List.mem_inits m t').mpr hp)

/-- Claim C6, amended: the pattern is one-or-two digits, space, three
word characters (letters, digits or underscore, not only month
abbreviations), space, four digits.  With that pattern the ladder is as
claimed: when the search finds a match, the date field is that match, it
is an instance of the pattern, it occurs in the text, and no instance
occurs at an earlier position; when the search fails, no substring of the
text is an instance of the pattern and the date field is the first 10
characters; an absent or empty pubDate text gives Unknown. -/
theorem claim_C6_amended :
    extractDate none = "Unknown" ∧
    extractDate (some "") = "Unknown" ∧
    ∀ t : String, t ≠ "" →
      (∀ m, reSearchDate t.toList = some m →
        datePat m = true ∧
        extractDate (some t) = String.mk m ∧
        ∃ p s, t.toList = p ++ m ++ s ∧
          ∀ p' m' s', t.toList = p' ++ m' ++ s' → datePat m' = true →
            p.length ≤ p'.length) ∧
      (reSearchDate t.toList = none →
        (∀ m, datePat m = true → ¬ m <:+: t.toList) ∧
        extractDate (some t) = String.mk (t.toList.take 10)) := by
  refine ⟨rfl, rfl, ?_⟩
  intro t ht
  constructor
  · intro m hm
    obtain ⟨hdp, p, s, hl, hleft⟩ := reSearchDate_some hm
    refine ⟨hdp, ?_, p, s, hl, hleft⟩
    have hred : extractDate (some t) =
        if t = "" then "Unknown"
        else match reSearchDate t.toList with
          | some m => String.mk m
          | none => String.mk (t.toList.take 10) := rfl
    rw [hred, if_neg ht, hm]
  · intro hnone
    refine ⟨fun m hdp => reSearchDate_none hnone m hdp, ?_⟩
    have hred : extractDate (some t) =
        if t = "" then "Unknown"
        else match reSearchDate t.toList with
          | some m => String.mk m
          | none => String.mk (t.toList.take 10) := rfl
    rw [hred, if_neg ht, hnone]

/-- Witness for the amended claim C6 on a realistic pubDate string. -/
theorem claim_C6_witness :
    (("Fri, 20 Jun 2025 18:11:59 +0200" : String) ≠ "") ∧
    ((∀ m, reSearchDate ("Fri, 20 Jun 2025 18:11:59 +0200" : String).toList = some m →
        datePat m = true ∧
        extractDate (some "Fri, 20 Jun 2025 18:11:59 +0200") = String.mk m ∧
        ∃ p s, ("Fri, 20 Jun 2025 18:11:59 +0200" : String).toList = p ++ m ++ s ∧
          ∀ p' m' s',
            ("Fri, 20 Jun 2025 18:11:59 +0200" : String).toList = p' ++ m' ++ s' →
            datePat m' = true → p.length ≤ p'.length) ∧
     (reSearchDate ("Fri, 20 Jun 2025 18:11:59 +0200" : String).toList = none →
        (∀ m, datePat m = true →
          ¬ m <:+: ("Fri, 20 Jun 2025 18:11:59 +0200" : String).toList) ∧
        extractDate (some "Fri, 20 Jun 2025 18:11:59 +0200") =
          String.mk (("Fri, 20 Jun 2025 18:11:59 +0200" : String).toList.take 10))) :=
  ⟨by decide, claim_C6_amended.2.2 "Fri, 20 Jun 2025 18:11:59 +0200" (by decide)⟩

/-! ### Claim C7 -/

mutual
theorem length_filter_iterNode (n : XmlNode) :
    ((iterNode n).filter (fun m => m.tag == "item")).length = countItems n := by
  cases n with
  | elem t tx cs =>
    rw [iterNode, countItems, List.filter_cons]
    by_cases ht : (XmlNode.tag (XmlNode.elem t tx cs) == "item") = true
    · rw [if_pos ht, List.length_cons, length_filter_iterList cs,
          if_pos (show (t == "item") = true from ht)]
      omega
    · rw [if_neg ht, length_filter_iterList cs,
          if_neg (show ¬ (t == "item") = true from ht)]
      omega

theorem length_filter_iterList (cs : List XmlNode) :
    ((iterList cs).filter (fun m => m.tag == "item")).length = countItemsList cs := by
  cases cs with
  | nil => rfl
  | cons n ns =>
    rw [iterList, countItemsList, List.filter_append, List.length_append,
        length_filter_iterNode n, length_filter_iterList ns]
end

/-- Claim C7: for a well-formed feed document (whose root element is not
itself an item), the parser returns exactly one Story per item element
anywhere in the document, in document order: the result is the map of the
story constructor over the document-order list of item elements, and its
length is the independent recursive count of item elements. -/
theorem claim_C7_theorem (root : XmlNode) (h : root.tag ≠ "item") :
    (parse_rss_content root).length = countItems root ∧
    parse_rss_content root =
      ((iterNode root).filter (fun m => m.tag == "item")).map storyOfItem := by
  have hroot : (iterNode root).filter (fun m => m.tag == "item") = findItems root := by
    cases root with
    | elem t tx cs =>
      have ht : (XmlNode.tag (.elem t tx cs) == "item") = false := by
        simp only [XmlNode.tag] at h ⊢
        simp [h]
      rw [iterNode, List.filter_cons]
      simp only [ht, Bool.false_eq_true, if_false]
      rfl
  constructor
  · calc (parse_rss_content root).length
        = (findItems root).length := by rw [parse_rss_content, List.length_map]
      _ = ((iterNode root).filter (fun m => m.tag == "item")).length := by rw [hroot]
      _ = countItems root := length_filter_iterNode root
  · rw [parse_rss_content, hroot]

/-- Witness for claim C7 on a document with three item elements, one of
them nested inside another item. -/
theorem claim_C7_witness :
    (XmlNode.tag docThreeItems ≠ "item") ∧
    ((parse_rss_content docThreeItems).length = countItems docThreeItems ∧
     parse_rss_content docThreeItems =
       ((iterNode docThreeItems).filter (fun m => m.tag == "item")).map storyOfItem) :=
  ⟨by decide, claim_C7_theorem docThreeItems (by decide)⟩
